import Mathlib

/-!
Verification development for the riscv-parse-csr repository.

The repository loads RISC-V CSR (control/status register) definitions from
YAML/JSON schema files (`udblib/parser.py`), optionally enriches them with
access-type information from a riscv-config file, and decodes integer register
values into named bitfields (`udblib/decoder.py`, plus the `compare`
subcommand of the CLI script).

This file gives a shallow embedding of that code:
* `Yaml` models the dynamically typed values produced by `yaml.safe_load` /
  `json.load` (`null` models Python `None`).
* `parse_range_spec`, `CSRField`, `CSRDefinition`, `load_all`,
  `load_riscv_config_hart` (and helpers) embed `udblib/parser.py`.
* `decode_value`, `decode_xor_mask`, `compare` embed `udblib/decoder.py` and
  the CLI's compare subcommand.

Machine integers are modelled as `Int` (Python integers are unbounded), with
the two's-complement bitwise operations `Int.land`, `Int.lor`, `Int.xor` and
the `<<<`/`>>>` instances on `ℤ`, which agree with Python's `&`, `|`, `^`,
`<<`, `>>` on all integers at nonnegative shift counts.  Python raises on a
negative shift count; the Lean shift instances instead shift the other way.
All theorems below stay in the domain where the two agree.
-/

namespace Udb

/-- A dynamically-typed value as produced by `yaml.safe_load`/`json.load`.
`null` models Python `None`.  (Floats do not occur in the claims' domain and
are omitted.) -/
inductive Yaml where
  | null : Yaml
  | bool : Bool → Yaml
  | int : Int → Yaml
  | str : String → Yaml
  | list : List Yaml → Yaml
  | map : List (String × Yaml) → Yaml

/-- Python truthiness for the modelled values: `None`, `False`, `0`, `""`,
`[]`, `{}` are falsy, everything else is truthy. -/
def truthy : Yaml → Bool
  | .null => false
  | .bool b => b
  | .int n => decide (n ≠ 0)
  | .str s => decide (s ≠ "")
  | .list xs => !xs.isEmpty
  | .map kvs => !kvs.isEmpty

/-- Predicate `isNull v` models Python's `v is None`. -/
def Yaml.isNull : Yaml → Bool
  | .null => true
  | _ => false

/-- Insert into a sorted list, before the first element not strictly
smaller. -/
def insertSorted {α : Type} (le : α → α → Bool) (x : α) : List α → List α
  | [] => [x]
  | y :: ys => if le x y then x :: y :: ys else y :: insertSorted le x ys

/-- CPython's `sorted(l)` for a total preorder `le`: a stable sort, modelled
as insertion sort (which computes the same list as any stable sort). -/
def pySorted {α : Type} (le : α → α → Bool) : List α → List α
  | [] => []
  | x :: xs => insertSorted le x (pySorted le xs)

/-- Python's `str.lower()` restricted to ASCII case mapping (field names in
the claims' domain are ASCII). -/
def pyLower (s : String) : String :=
  ⟨s.data.map Char.toLower⟩

/-- Code-point lexicographic order on character lists — Python's `<=` on
strings. -/
def charListLe : List Char → List Char → Bool
  | [], _ => true
  | _ :: _, [] => false
  | a :: as, b :: bs =>
    if a.toNat < b.toNat then true
    else if b.toNat < a.toNat then false
    else charListLe as bs

/-- Python's string comparison, used to sort the globbed filenames. -/
def strLe (a b : String) : Bool :=
  charListLe a.data b.data

/-- Python's `str.strip()`: drop leading and trailing whitespace. -/
def pyStrip (s : String) : String :=
  ⟨((s.data.dropWhile Char.isWhitespace).reverse.dropWhile Char.isWhitespace).reverse⟩

/-- Python's `s.replace("\n", " ")` — with a single-character pattern this
is a character map. -/
def replaceNewline (s : String) : String :=
  ⟨s.data.map (fun c => if c = '\n' then ' ' else c)⟩

/-- Key lookup in a parsed mapping (`k in d` / `d[k]`).  YAML mappings have
distinct keys, so first-match lookup models Python `dict` access. -/
def lookupKey (kvs : List (String × Yaml)) (k : String) : Option Yaml :=
  (kvs.find? (fun p => p.1 == k)).map (fun p => p.2)

/-- Python `d.get(k, dflt)`. -/
def pyGetD (kvs : List (String × Yaml)) (k : String) (dflt : Yaml) : Yaml :=
  match lookupKey kvs k with
  | some v => v
  | none => dflt

/-- Python `d.get(k)`: absent keys yield `None`. -/
def pyGet (kvs : List (String × Yaml)) (k : String) : Yaml :=
  pyGetD kvs k .null

/-- Numeric value of a list of decimal digit characters. -/
def digitsVal (ds : List Char) : Nat :=
  ds.foldl (fun acc c => acc * 10 + (c.toNat - 48)) 0

/-- Python `int(s)` on a string: optional surrounding whitespace, optional
sign, then at least one decimal digit.  (Digit-group underscores and other
bases do not occur in the claims' domain.) -/
def parseIntString (s : String) : Option Int :=
  let cs := (pyStrip s).toList
  match cs with
  | '-' :: rest =>
    if rest ≠ [] ∧ rest.all Char.isDigit then some (-(digitsVal rest : Int)) else none
  | '+' :: rest =>
    if rest ≠ [] ∧ rest.all Char.isDigit then some ((digitsVal rest : Int)) else none
  | _ =>
    if cs ≠ [] ∧ cs.all Char.isDigit then some ((digitsVal cs : Int)) else none

/-- Python `int(v)` on a loaded value: identity on ints, `True`/`False` are
the ints 1/0, numeric strings are parsed; anything else raises
(`none` here). -/
def pyInt : Yaml → Option Int
  | .int n => some n
  | .bool b => some (if b then 1 else 0)
  | .str s => parseIntString s
  | _ => none

/-- The `for k in (...): if k in bits_spec:` key-probing loop of
`parse_range_spec`: the value of the first listed key present in the
mapping. -/
def findFirstKey (kvs : List (String × Yaml)) : List String → Option Yaml
  | [] => none
  | k :: ks =>
    match lookupKey kvs k with
    | some v => some v
    | none => findFirstKey kvs ks

/-- Matcher for the regex `^(\d+)\s*(?:\.\.|\:|\-)\s*(\d+)$` used on string
range specs. -/
def matchRangePat (s : String) : Option (Nat × Nat) :=
  let cs := s.toList
  let p1 := cs.span Char.isDigit
  if p1.1 = [] then none
  else
    let r1 := p1.2.dropWhile Char.isWhitespace
    let sep : Option (List Char) :=
      match r1 with
      | '.' :: '.' :: rest => some rest
      | ':' :: rest => some rest
      | '-' :: rest => some rest
      | _ => none
    match sep with
    | none => none
    | some r2 =>
      let r3 := r2.dropWhile Char.isWhitespace
      let p2 := r3.span Char.isDigit
      if p2.1 = [] ∨ p2.2 ≠ [] then none
      else some (digitsVal p1.1, digitsVal p2.1)

/-- Matcher for the regex `^(\d+)$` used on single-number string specs. -/
def matchSinglePat (s : String) : Option Nat :=
  let cs := s.toList
  if cs ≠ [] ∧ cs.all Char.isDigit then some (digitsVal cs) else none

/-- Failure conditions of `parse_range_spec` (Python raises `ValueError` /
`TypeError`; the loader catches any of them per field).  `malformed` carries
the original raw value, as the `ValueError` message does. -/
inductive RangeErr where
  | noneSpec : RangeErr
  | malformed : Yaml → RangeErr
  | convFail : Yaml → RangeErr

/-- Function `parse_range_spec` from `udblib/parser.py`: normalize a bit-range spec to
a canonical `(msb, lsb)` pair with `msb ≥ lsb`.

Branches in source order: `None` check, `int` (Python `bool` is an `int`
subclass, so it takes this branch too), two-element sequence, keyed mapping
(high-bit key probed among msb/hi/from/to/high, low-bit key among
lsb/lo/to/low, first present key wins, each converted by `int()`), and
finally the string patterns applied to `str(bits_spec).strip()`.  A list of
fewer than two elements falls through to the string branch in Python, where
`str` of a list starts with `[` and so matches neither pattern; it is mapped
directly to `malformed` here. -/
def parse_range_spec : Yaml → Except RangeErr (Int × Int)
  | .null => .error .noneSpec
  | .bool b => .ok (if b then ((1 : Int), (1 : Int)) else ((0 : Int), (0 : Int)))
  | .int n => .ok (n, n)
  | .list xs =>
    match xs with
    | a :: b :: _ =>
      match pyInt a, pyInt b with
      | some x, some y => .ok (if x ≥ y then (x, y) else (y, x))
      | _, _ => .error (.convFail (.list xs))
    | _ => .error (.malformed (.list xs))
  | .map kvs =>
    (match findFirstKey kvs ["msb", "hi", "from", "to", "high"] with
     | some mv =>
       match pyInt mv with
       | none => .error (.convFail (.map kvs))
       | some m =>
         match findFirstKey kvs ["lsb", "lo", "to", "low"] with
         | some lv =>
           match pyInt lv with
           | none => .error (.convFail (.map kvs))
           | some l => .ok (if m ≥ l then (m, l) else (l, m))
         | none => .error (.malformed (.map kvs))
     | none =>
       match findFirstKey kvs ["lsb", "lo", "to", "low"] with
       | some lv =>
         match pyInt lv with
         | none => .error (.convFail (.map kvs))
         | some _ => .error (.malformed (.map kvs))
       | none => .error (.malformed (.map kvs)))
  | .str s =>
    let t := pyStrip s
    match matchRangePat t with
    | some (a, b) =>
      .ok (if (a : Int) ≥ (b : Int) then ((a : Int), (b : Int)) else ((b : Int), (a : Int)))
    | none =>
      match matchSinglePat t with
      | some n => .ok ((n : Int), (n : Int))
      | none => .error (.malformed (.str s))

/-- Structure `CSRField` from `udblib/parser.py`.  `desc` is stored already processed by
the constructor (see `CSRField.make`); attributes whose values the code never
computes with are kept as raw loaded values. -/
structure CSRField where
  name : String
  msb : Int
  lsb : Int
  desc : String
  field_type : Yaml
  reset_value : Yaml
  aliasName : Yaml
  access_type : String
  legal_values : Yaml

/-- Constructor `CSRField.__init__`: stores its arguments, normalizing the description by
`desc.strip().replace('\n', ' ')`.  The source's `alias` attribute is called
`aliasName` here because `alias` is a Lean keyword. -/
def CSRField.make (name : String) (msb lsb : Int) (desc : String) (field_type : Yaml)
    (reset_value : Yaml) (aliasName : Yaml) (access_type : String) (legal_values : Yaml) :
    CSRField :=
  { name := name, msb := msb, lsb := lsb, desc := replaceNewline (pyStrip desc),
    field_type := field_type, reset_value := reset_value, aliasName := aliasName,
    access_type := access_type, legal_values := legal_values }

/-- The `width` property: `msb - lsb + 1`. -/
def CSRField.width (f : CSRField) : Int :=
  f.msb - f.lsb + 1

/-- Method `CSRField.mask`: `((1 << width) - 1) << lsb`.  Python raises on negative
shift counts; the `ℤ` shift instances instead shift right, so the model and
the code agree whenever `width ≥ 0` and `lsb ≥ 0`. -/
def CSRField.mask (f : CSRField) : Int :=
  ((1 <<< f.width) - 1) <<< f.lsb

/-- Method `CSRField.contains_any`: `(mask & m) != 0`. -/
def CSRField.contains_any (f : CSRField) (m : Int) : Bool :=
  decide (Int.land f.mask m ≠ 0)

/-- Method `CSRField.changed_bits`: `mask & xor_mask`. -/
def CSRField.changed_bits (f : CSRField) (xor_mask : Int) : Int :=
  Int.land f.mask xor_mask

/-- Structure `CSRDefinition` from `udblib/parser.py`: one named register with its raw
document and an ordered field list. -/
structure CSRDefinition where
  name : String
  raw : Yaml
  fields : List CSRField
  long_name : Yaml
  length : Yaml
  description : Yaml
  writable : Yaml
  priv_mode : Yaml
  definedBy : Yaml

/-- Constructor `CSRDefinition.__init__`: extracts the top-level attributes from the raw
document with their defaults (`length` defaults to 64) and starts with an
empty field list.  The loader only constructs definitions from mapping
documents, so the non-mapping case (which would raise in Python) maps to the
empty mapping. -/
def CSRDefinition.make (name : String) (raw : Yaml) : CSRDefinition :=
  let kvs := match raw with | .map m => m | _ => []
  { name := name, raw := raw, fields := [],
    long_name := pyGetD kvs "long_name" (.str ""),
    length := pyGetD kvs "length" (.int 64),
    description := pyGetD kvs "description" (.str ""),
    writable := pyGetD kvs "writable" (.bool false),
    priv_mode := pyGetD kvs "priv_mode" (.str ""),
    definedBy := pyGetD kvs "definedBy" (.map []) }

/-- Method `CSRDefinition.add_field`: append to the field list. -/
def CSRDefinition.add_field (csr : CSRDefinition) (f : CSRField) : CSRDefinition :=
  { csr with fields := csr.fields ++ [f] }

/-! ## The loader (`UDBParser.load_all`) -/

/-- Python `str(v)` as used on register names.  Containers never occur as
names in the claims' domain; their renderings are abbreviated. -/
def pyStr : Yaml → String
  | .str s => s
  | .int n => toString n
  | .bool b => if b then "True" else "False"
  | .null => "None"
  | .list _ => "[...]"
  | .map _ => "\x7b...\x7d"

/-- The description lookup used when a `CSRField` is built during loading:
`field_data.get("description", "")`.  `CSRField.__init__` immediately calls
`.strip()` on it, so a present non-string value raises and the enclosing
`try` skips the field; that case is `none`. -/
def descOf (fd : List (String × Yaml)) : Option String :=
  match lookupKey fd "description" with
  | none => some ""
  | some (.str s) => some s
  | some _ => none

/-- The location-selection step of `load_all` (parser.py lines 170-174):

    loc = field_data.get("location")
    if loc is None:
        loc = field_data.get("location_rv64") or field_data.get("location_rv32")

Note the Python `or`: a present-but-falsy `location_rv64` (such as `0`) falls
through to `location_rv32`. -/
def selectLocation (fd : List (String × Yaml)) : Yaml :=
  let loc := pyGet fd "location"
  if loc.isNull then
    let rv64 := pyGet fd "location_rv64"
    if truthy rv64 then rv64 else pyGet fd "location_rv32"
  else loc

/-- The per-field loop of `load_all`: each entry of the `fields` mapping
either contributes one `CSRField` (in iteration order) or is skipped — when
its descriptor is not a mapping, when no location key yields a value, when
`parse_range_spec` fails, or when the description would make the constructor
raise.  The `try`/`except` around the body downgrades all of these to a
skip. -/
def processFields : List (String × Yaml) → List CSRField
  | [] => []
  | (field_name, field_data) :: rest =>
    match field_data with
    | .map fd =>
      (let loc := selectLocation fd
       if loc.isNull then processFields rest
       else
         match parse_range_spec loc with
         | .error _ => processFields rest
         | .ok (msb, lsb) =>
           match descOf fd with
           | none => processFields rest
           | some desc =>
             CSRField.make field_name msb lsb desc (pyGetD fd "type" (.str ""))
                 (pyGet fd "reset_value") (pyGetD fd "alias" (.str "")) "" .null ::
               processFields rest)
    | _ => processFields rest

/-- Python `dict` assignment `table[name] = csr`: replace in place if the key
exists (keeping its position), otherwise append. -/
def insertReplace : List (String × CSRDefinition) → String → CSRDefinition →
    List (String × CSRDefinition)
  | [], name, csr => [(name, csr)]
  | (k, v) :: rest, name, csr =>
    if k == name then (k, csr) :: rest
    else (k, v) :: insertReplace rest name csr

/-- The per-file step of `load_all`'s main loop.  A file is a pair of its
name and `some` parsed document, or `none` when reading/parsing raised (the
`except: continue`).  Skipped without touching the table: parse failures,
falsy or non-mapping documents, documents without `kind = "csr"` or without a
`name`. -/
def processFile (table : List (String × CSRDefinition)) (entry : String × Option Yaml) :
    List (String × CSRDefinition) :=
  match entry.2 with
  | none => table
  | some data =>
    match data with
    | .map kvs =>
      if kvs.isEmpty then table
      else
        (match pyGet kvs "kind" with
         | .str kind =>
           if kind == "csr" then
             match lookupKey kvs "name" with
             | none => table
             | some nameVal =>
               let name := pyStr nameVal
               let csr0 := CSRDefinition.make name (.map kvs)
               let csr1 :=
                 match pyGetD kvs "fields" (.map []) with
                 | .map fkvs => { csr0 with fields := processFields fkvs }
                 | _ => csr0
               insertReplace table name csr1
           else table
         | _ => table)
    | _ => table

/-- Method `UDBParser.load_all`: glob results are modelled as the given file list;
the files are processed in sorted filename order and accumulated into the
name-indexed table (last write wins on duplicate names).  The function
returns only that table; parse failures are skipped silently, leaving no
trace in the result.  The optional riscv-config enrichment step that
`load_all` runs afterwards is modelled separately by
`load_riscv_config_hart`. -/
def load_all (files : List (String × Option Yaml)) : List (String × CSRDefinition) :=
  (pySorted (fun a b => strLe a.1 b.1) files).foldl processFile []

/-! ## Enrichment (`UDBParser._load_riscv_config`) -/

/-- Method `UDBParser._parse_type_info`: classify a riscv-config `type` descriptor
into an access-type tag and its legal-value payload. -/
def parse_type_info (type_info : Yaml) : String × Yaml :=
  match type_info with
  | .map kvs =>
    (match lookupKey kvs "warl" with
     | some warl_data =>
       ("warl", match warl_data with | .map wm => pyGet wm "legal" | _ => .null)
     | none =>
       match lookupKey kvs "wlrl" with
       | some wlrl_data => ("wlrl", wlrl_data)
       | none =>
         match lookupKey kvs "wpri" with
         | some _ => ("wpri", .null)
         | none =>
           match lookupKey kvs "wiri" with
           | some _ => ("wiri", .null)
           | none =>
             match lookupKey kvs "ro_constant" with
             | some v => ("ro_constant", v)
             | none =>
               match lookupKey kvs "ro_variable" with
               | some v => ("ro_variable", v)
               | none => ("", .null))
  | _ => ("", .null)

/-- Lines 244-247: apply a whole-register access-type to every existing field
that does not yet have one (`if not field.access_type`). -/
def applyWholeType (access_type : String) (legal_values : Yaml) (fields : List CSRField) :
    List CSRField :=
  fields.map (fun f =>
    if f.access_type == "" then
      { f with access_type := access_type, legal_values := legal_values }
    else f)

/-- Lines 266-270 / 281-285: set the access-type of the first field matching
the given name case-insensitively (the loop `break`s after the first match),
overwriting whatever was there. -/
def setFirstMatch (fields : List CSRField) (field_name : String) (access_type : String)
    (legal_values : Yaml) : List CSRField :=
  match fields with
  | [] => []
  | f :: rest =>
    if pyLower f.name == pyLower field_name then
      { f with access_type := access_type, legal_values := legal_values } :: rest
    else f :: setFirstMatch rest field_name access_type legal_values

/-- Lines 254-270: the `fields`-as-list variant; each listed name's own
descriptor is looked up at the same level as the other `rv64`/`rv32` keys. -/
def applyFieldList (rvm : List (String × Yaml)) (names : List Yaml)
    (fields : List CSRField) : List CSRField :=
  names.foldl (fun fs n =>
    match n with
    | .str field_name =>
      (match pyGet rvm field_name with
       | .map fcm =>
         if fcm.isEmpty then fs
         else
           let field_type_info := pyGet fcm "type"
           if truthy field_type_info then
             let r := parse_type_info field_type_info
             setFirstMatch fs field_name r.1 r.2
           else fs
       | _ => fs)
    | _ => fs) fields

/-- Lines 271-285: the `fields`-as-mapping variant; each entry carries its
descriptor directly (only an `isinstance` guard here, no truthiness check). -/
def applyFieldDict (items : List (String × Yaml)) (fields : List CSRField) :
    List CSRField :=
  items.foldl (fun fs p =>
    match p.2 with
    | .map fcm =>
      (let field_type_info := pyGet fcm "type"
       if truthy field_type_info then
         let r := parse_type_info field_type_info
         setFirstMatch fs p.1 r.1 r.2
       else fs)
    | _ => fs) fields

/-- Lookup `d.get(k, "")` for values the code feeds to string processing.  In the
claims' domain these are strings or absent. -/
def getStrD (kvs : List (String × Yaml)) (k : String) : String :=
  match lookupKey kvs k with
  | some (.str s) => s
  | _ => ""

/-- Lookup `rv_data.get("msb", 63)` / `rv_data.get("lsb", 0)`: the stored raw value
when it is an integer, else the default.  (Python would store a non-integer
raw value, which breaks all later mask arithmetic; that case is outside the
claims' domain.) -/
def getIntD (kvs : List (String × Yaml)) (k : String) (dflt : Int) : Int :=
  match lookupKey kvs k with
  | some (.int n) => n
  | _ => dflt

/-- The body of `_load_riscv_config`'s per-register enrichment once the
width-specific sub-object `rvm` has been selected (parser.py lines 231-285):
first the whole-register `type` descriptor (synthesizing a single field
spanning `[get("msb", 63) : get("lsb", 0)]` when the register has no fields,
else filling in unset access-types), then the field-specific descriptors. -/
def enrichWithRV (rvm : List (String × Yaml)) (csr_name : String) (config_desc : String)
    (csr : CSRDefinition) : CSRDefinition :=
  let csr1 :=
    let csr_type_info := pyGet rvm "type"
    if truthy csr_type_info then
      let r := parse_type_info csr_type_info
      if csr.fields.isEmpty then
        csr.add_field (CSRField.make csr_name (getIntD rvm "msb" 63) (getIntD rvm "lsb" 0)
          config_desc (.str "") .null (.str "") r.1 r.2)
      else
        { csr with fields := applyWholeType r.1 r.2 csr.fields }
    else csr
  let fields_list := pyGet rvm "fields"
  if truthy fields_list then
    match fields_list with
    | .list names => { csr1 with fields := applyFieldList rvm names csr1.fields }
    | .map items => { csr1 with fields := applyFieldDict items csr1.fields }
    | _ => csr1
  else csr1

/-- One iteration of the enrichment loop for the table entry of `csr_name`:
look the register up in the hart entry, select the `rv64` sub-object
(falling back to `rv32`), and apply `enrichWithRV`.  Registers absent from
the hart entry, falsy/non-mapping config entries, and falsy sub-objects are
left untouched. -/
def enrichCSR (hart : List (String × Yaml)) (entry : String × CSRDefinition) :
    String × CSRDefinition :=
  let csr_name := entry.1
  match pyGet hart csr_name with
  | .map cc =>
    if cc.isEmpty then entry
    else
      let rv_data :=
        let a := pyGet cc "rv64"
        if truthy a then a else pyGet cc "rv32"
      if truthy rv_data then
        match rv_data with
        | .map rvm =>
          (csr_name, enrichWithRV rvm csr_name (getStrD cc "description") entry.2)
        | _ => entry
      else entry
  | _ => entry

/-- Hart-entry selection (lines 210-214): the first key starting with
`hart`, excluding the reserved `hart_ids`. -/
def selectHart (config : List (String × Yaml)) : Option Yaml :=
  match config.find? (fun p => p.1.startsWith "hart" && p.1 != "hart_ids") with
  | some p => some p.2
  | none => none

/-- The enrichment pass over the whole table, given the selected hart
entry.  The Python code mutates each `CSRDefinition` in place while
iterating `items()`; here the updated table is returned. -/
def load_riscv_config_hart (hart : List (String × Yaml))
    (table : List (String × CSRDefinition)) : List (String × CSRDefinition) :=
  table.map (enrichCSR hart)

/-! ## The decoder (`udblib/decoder.py` and the CLI compare subcommand) -/

/-- Number of one bits of a natural number (Python `int.bit_count()`; the
decoder only applies it to nonnegative values). -/
def popCount : Nat → Nat
  | 0 => 0
  | n + 1 => (n + 1) % 2 + popCount ((n + 1) / 2)
decreasing_by exact Nat.div_lt_self (Nat.succ_pos n) (by decide)

/-- Model of `sorted(csr.fields, key=lambda ff: ff.msb, reverse=True)` — the field
ordering shared by `decode_value` and `decode_xor_mask`: descending by
`msb`, ties keeping schema order (CPython's sort is stable, as is
`pySorted`). -/
def sortByMsbDesc (fs : List CSRField) : List CSRField :=
  pySorted (fun a b => decide (b.msb ≤ a.msb)) fs

/-- One entry of `decode_value`'s result.  The Python dict also carries
`hex` and `bin`, which are just string renderings of the same integer
`value`; they are not modelled separately. -/
structure Observation where
  name : String
  msb : Int
  lsb : Int
  width : Int
  value : Int
  desc : String
deriving DecidableEq

/-- Method `Decoder.decode_value`: one observation per field, in descending-msb
order, extracting `(value & mask) >> lsb`. -/
def decode_value (csr : CSRDefinition) (value : Int) : List Observation :=
  (sortByMsbDesc csr.fields).map (fun f =>
    { name := f.name, msb := f.msb, lsb := f.lsb, width := f.width,
      value := (Int.land value f.mask) >>> f.lsb, desc := f.desc })

/-- One entry of `decode_xor_mask`'s result.  `changed_mask` and
`changed_rel` are rendered with `hex(...)` in Python; the underlying
integers are modelled. -/
structure ChangeEntry where
  name : String
  msb : Int
  lsb : Int
  width : Int
  changed_mask : Int
  changed_rel : Int
  changed_bits_count : Nat
  desc : String
deriving DecidableEq

/-- Method `Decoder.decode_xor_mask`: same field order, keeping only fields whose
mask intersects the xor mask (`if changed:`). -/
def decode_xor_mask (csr : CSRDefinition) (xor_mask : Int) : List ChangeEntry :=
  (sortByMsbDesc csr.fields).filterMap (fun f =>
    let changed := f.changed_bits xor_mask
    if changed ≠ 0 then
      some { name := f.name, msb := f.msb, lsb := f.lsb, width := f.width,
             changed_mask := changed, changed_rel := changed >>> f.lsb,
             changed_bits_count := popCount changed.toNat, desc := f.desc }
    else none)

/-- One retained pair of the CLI compare subcommand's JSON output
(`{"field": ..., "value1": ..., "value2": ...}`). -/
structure CompareDiff where
  field : String
  value1 : Int
  value2 : Int
deriving DecidableEq

/-- The compare operation (CLI script, line 107): zip the two decodes
positionally and retain the pairs whose extracted integers differ. -/
def compare (csr : CSRDefinition) (val1 val2 : Int) : List CompareDiff :=
  ((decode_value csr val1).zip (decode_value csr val2)).filterMap (fun p =>
    if p.1.value ≠ p.2.value then
      some { field := p.1.name, value1 := p.1.value, value2 := p.2.value }
    else none)

/-! ## Bit-arithmetic helper lemmas

The decoder's arithmetic lives on `ℤ` (Python ints).  Under the validity
assumption `0 ≤ lsb ≤ msb` every intermediate value is a nonnegative
integer, and the lemmas below carry the reasoning down to `ℕ` and
`Nat.testBit`. -/

/-- The field mask as a natural number: `width` one-bits starting at
position `lsb`. -/
def maskN (w l : ℕ) : ℕ :=
  (2 ^ w - 1) <<< l

theorem testBit_maskN (w l i : ℕ) :
    (maskN w l).testBit i = (decide (l ≤ i) && decide (i < l + w)) := by
  simp only [maskN, Nat.testBit_shiftLeft, Nat.testBit_two_pow_sub_one]
  by_cases h : l ≤ i
  · have hiff : (i - l < w) ↔ (i < l + w) := by omega
    simp [h, hiff]
  · simp [h]

theorem width_toNat_eq (f : CSRField) (h1 : f.lsb ≤ f.msb) :
    (f.width.toNat : ℤ) = f.msb - f.lsb + 1 := by
  have : (0 : ℤ) ≤ f.width := by
    unfold CSRField.width
    omega
  rw [Int.toNat_of_nonneg this]
  rfl

/-- For a valid field the `ℤ`-level mask is the `ℕ`-level `maskN`. -/
theorem mask_eq_coe (f : CSRField) (h0 : 0 ≤ f.lsb) (h1 : f.lsb ≤ f.msb) :
    f.mask = ((maskN f.width.toNat f.lsb.toNat : ℕ) : ℤ) := by
  have hw : ((f.width.toNat : ℕ) : ℤ) = f.width :=
    Int.toNat_of_nonneg (by unfold CSRField.width; omega)
  have hl : ((f.lsb.toNat : ℕ) : ℤ) = f.lsb := Int.toNat_of_nonneg h0
  rw [CSRField.mask, ← hw, ← hl, Int.one_shiftLeft]
  rw [← Nat.cast_one, ← Nat.cast_sub (Nat.one_le_two_pow)]
  rw [Int.shiftLeft_coe_nat]
  rfl

theorem testBit_coe (n : ℕ) (i : ℕ) : Int.testBit ((n : ℕ) : ℤ) i = n.testBit i := rfl

/-- Conjunction `v & m` for `m : ℕ` is a natural number whose bits are the conjunction
of the operands' bits — for every `v : ℤ`, including negatives. -/
theorem land_coe_spec (v : ℤ) (m : ℕ) :
    ∃ n : ℕ, Int.land v (m : ℤ) = (n : ℤ) ∧
      ∀ i, n.testBit i = (v.testBit i && m.testBit i) := by
  have hnn : 0 ≤ Int.land v (m : ℤ) := by
    cases v with
    | ofNat a => exact Int.ofNat_nonneg _
    | negSucc a => exact Int.ofNat_nonneg _
  refine ⟨(Int.land v (m : ℤ)).toNat, (Int.toNat_of_nonneg hnn).symm, fun i => ?_⟩
  rw [← testBit_coe, Int.toNat_of_nonneg hnn, Int.testBit_land]
  rfl

/-- Conjunction `m & v` for `m : ℕ`, the coercion on the left. -/
theorem coe_land_spec (m : ℕ) (v : ℤ) :
    ∃ n : ℕ, Int.land (m : ℤ) v = (n : ℤ) ∧
      ∀ i, n.testBit i = (m.testBit i && v.testBit i) := by
  have hnn : 0 ≤ Int.land (m : ℤ) v := by
    cases v with
    | ofNat a => exact Int.ofNat_nonneg _
    | negSucc a => exact Int.ofNat_nonneg _
  refine ⟨(Int.land (m : ℤ) v).toNat, (Int.toNat_of_nonneg hnn).symm, fun i => ?_⟩
  rw [← testBit_coe, Int.toNat_of_nonneg hnn, Int.testBit_land]
  rfl

/-- Characterization of the decoder's field extraction
`(v & mask) >> lsb`: it is a natural number below `2 ^ width` whose bit `i`
is bit `lsb + i` of the input, for `i < width`. -/
theorem extract_spec (f : CSRField) (h0 : 0 ≤ f.lsb) (h1 : f.lsb ≤ f.msb) (v : ℤ) :
    ∃ n : ℕ, (Int.land v f.mask) >>> f.lsb = (n : ℤ) ∧
      (∀ i, n.testBit i = (decide (i < f.width.toNat) && v.testBit (f.lsb.toNat + i))) ∧
      n < 2 ^ f.width.toNat := by
  obtain ⟨n0, hn0, hbits⟩ := by
    have := land_coe_spec v (maskN f.width.toNat f.lsb.toNat)
    rwa [← mask_eq_coe f h0 h1] at this
  have hl : ((f.lsb.toNat : ℕ) : ℤ) = f.lsb := Int.toNat_of_nonneg h0
  refine ⟨n0 >>> f.lsb.toNat, ?_, ?_, ?_⟩
  · have hstep : (Int.land v f.mask) >>> f.lsb = ((n0 : ℕ) : ℤ) >>> ((f.lsb.toNat : ℕ) : ℤ) := by
      rw [hn0, hl]
    rw [hstep, Int.shiftRight_coe_nat]
  · intro i
    rw [Nat.testBit_shiftRight, hbits, testBit_maskN]
    by_cases hiw : i < f.width.toNat
    · have hle : f.lsb.toNat ≤ f.lsb.toNat + i := Nat.le_add_right _ _
      have hlt : f.lsb.toNat + i < f.lsb.toNat + f.width.toNat := by omega
      simp [hiw, hle, hlt, Bool.and_comm]
    · have hlt : ¬ (f.lsb.toNat + i < f.lsb.toNat + f.width.toNat) := by omega
      simp [hiw, hlt]
  · apply Nat.lt_pow_two_of_testBit
    intro i hi
    rw [Nat.testBit_shiftRight, hbits, testBit_maskN]
    have hlt : ¬ (f.lsb.toNat + i < f.lsb.toNat + f.width.toNat) := by omega
    simp [hlt]

/-- Adding numbers with disjoint bits is bitwise or. -/
theorem add_eq_or_of_and_eq_zero : ∀ (a b : ℕ), a &&& b = 0 → a + b = a ||| b := by
  intro a
  induction a using Nat.strong_induction_on with
  | _ a ih =>
    intro b h
    rcases Nat.eq_zero_or_pos a with rfl | ha
    · simp [Nat.zero_or]
    · have hbits : ∀ i, (a.testBit i && b.testBit i) = false := by
        intro i
        have := congrArg (fun x => x.testBit i) h
        simpa [Nat.testBit_and] using this
      have h2 : a / 2 &&& b / 2 = 0 := by
        apply Nat.eq_of_testBit_eq
        intro i
        simp [Nat.testBit_and, Nat.testBit_div_two, hbits (i + 1)]
      have ih2 : a / 2 + b / 2 = a / 2 ||| b / 2 :=
        ih (a / 2) (Nat.div_lt_self ha (by decide)) (b / 2) h2
      have hor2 : (a ||| b) / 2 = a / 2 ||| b / 2 := by
        apply Nat.eq_of_testBit_eq
        intro i
        simp [Nat.testBit_div_two, Nat.testBit_or]
      have hmod : (a ||| b) % 2 = a % 2 + b % 2 := by
        have h0 := hbits 0
        have t1 := Nat.testBit_zero a
        have t2 := Nat.testBit_zero b
        have t3 := Nat.testBit_zero (a ||| b)
        have t4 : (a ||| b).testBit 0 = (a.testBit 0 || b.testBit 0) := Nat.testBit_or a b 0
        rcases Nat.mod_two_eq_zero_or_one a with h1 | h1 <;>
          rcases Nat.mod_two_eq_zero_or_one b with h2' | h2' <;>
            rcases Nat.mod_two_eq_zero_or_one (a ||| b) with h3 | h3 <;>
              simp_all
      have da := Nat.div_add_mod a 2
      have db := Nat.div_add_mod b 2
      have dab := Nat.div_add_mod (a ||| b) 2
      omega

theorem and_foldr_or_eq_zero (m : ℕ) :
    ∀ (ms : List ℕ), (∀ x ∈ ms, m &&& x = 0) →
      m &&& ms.foldr (fun x acc => x ||| acc) 0 = 0 := by
  intro ms
  induction ms with
  | nil => intro _; exact Nat.and_zero m
  | cons x xs ih =>
    intro h
    rw [List.foldr_cons, Nat.and_or_distrib_left, h x (by simp),
      ih (fun y hy => h y (by simp [hy])), Nat.or_self]

theorem land_land_eq_zero (v x y : ℕ) (h : x &&& y = 0) :
    (v &&& x) &&& (v &&& y) = 0 := by
  apply Nat.eq_of_testBit_eq
  intro i
  have hb := congrArg (fun z => z.testBit i) h
  simp only [Nat.testBit_and, Nat.zero_testBit] at hb ⊢
  cases hx : x.testBit i <;> cases hy : y.testBit i <;> simp_all

/-- Summing the masked slices over pairwise disjoint masks recovers the
conjunction with the union of the masks. -/
theorem sum_land_eq_land_foldr_or (v : ℕ) :
    ∀ (ms : List ℕ), ms.Pairwise (fun x y => x &&& y = 0) →
      (ms.map (fun m => v &&& m)).sum = v &&& ms.foldr (fun x acc => x ||| acc) 0 := by
  intro ms
  induction ms with
  | nil => intro _; simp
  | cons m rest ih =>
    intro hp
    rcases List.pairwise_cons.mp hp with ⟨hhead, htail⟩
    rw [List.map_cons, List.sum_cons, ih htail, List.foldr_cons,
      Nat.and_or_distrib_left]
    exact add_eq_or_of_and_eq_zero _ _
      (land_land_eq_zero v m _ (and_foldr_or_eq_zero m rest hhead))

/-- A value found by the key-probing loop is one of the mapping's values. -/
theorem findFirstKey_mem (kvs : List (String × Yaml)) :
    ∀ (ks : List String) (v : Yaml), findFirstKey kvs ks = some v → ∃ k, (k, v) ∈ kvs := by
  intro ks
  induction ks with
  | nil => intro v h; simp [findFirstKey] at h
  | cons k rest ih =>
    intro v h
    simp only [findFirstKey] at h
    cases hk : lookupKey kvs k with
    | some w =>
      rw [hk] at h
      simp only [Option.some.injEq] at h
      subst h
      obtain ⟨⟨k1, v1⟩, hp, hp2⟩ := Option.map_eq_some'.mp hk
      simp only at hp2
      subst hp2
      exact ⟨k1, List.mem_of_find?_eq_some hp⟩
    | none =>
      rw [hk] at h
      exact ih v h

/-! ## Sample objects used by witnesses and counterexamples -/

/-- An 8-bit demo register with fields EN[7:7], MODE[6:5], CNT[4:0]. -/
def demoCSR : CSRDefinition :=
  let base := CSRDefinition.make "demo"
    (.map [("kind", .str "csr"), ("name", .str "demo"), ("length", .int 8)])
  { base with fields :=
      [CSRField.make "EN" 7 7 "" (.str "") .null (.str "") "" .null,
       CSRField.make "MODE" 6 5 "" (.str "") .null (.str "") "" .null,
       CSRField.make "CNT" 4 0 "" (.str "") .null (.str "") "" .null] }

/-- A register holding a single 5-bit counter field. -/
def csrCnt : CSRDefinition :=
  let base := CSRDefinition.make "cnt"
    (.map [("kind", .str "csr"), ("name", .str "cnt"), ("length", .int 5)])
  { base with fields := [CSRField.make "CNT" 4 0 "" (.str "") .null (.str "") "" .null] }

/-- A field whose access-type has already been set to `warl`. -/
def warlField : CSRField :=
  CSRField.make "EN" 7 7 "" (.str "") .null (.str "") "warl" (.list [.int 1])

/-- A register whose only field already carries the `warl` access-type. -/
def csrWarl : CSRDefinition :=
  let base := CSRDefinition.make "mreg" (.map [("kind", .str "csr"), ("name", .str "mreg")])
  { base with fields := [warlField] }

/-- A hart entry giving register `mreg` a field-specific `wpri` descriptor
for field `EN` (riscv-config shape: `fields` lists the names, the per-field
descriptors sit beside it). -/
def hartOverwrite : List (String × Yaml) :=
  [("mreg", .map [("rv64", .map [("fields", .list [.str "EN"]),
      ("EN", .map [("type", .map [("wpri", .null)])])])])]

/-- A width-specific sub-object carrying only a whole-register `wpri` type
descriptor (no `msb`/`lsb` keys, no `fields` key). -/
def rvWholeWpri : List (String × Yaml) :=
  [("type", .map [("wpri", .null)])]

/-- A hart entry wrapping `rvWholeWpri` for register `mreg`. -/
def hartWholeWpri : List (String × Yaml) :=
  [("mreg", .map [("rv64", .map rvWholeWpri)])]

/-- A register declared 32 bits long, with no fields. -/
def csrLen32 : CSRDefinition :=
  CSRDefinition.make "mreg"
    (.map [("kind", .str "csr"), ("name", .str "mreg"), ("length", .int 32)])

/-! ## The claims -/

/-- C9: range normalization is idempotent — normalizing a two-element
sequence `[a, b]` that is already a canonical high-low pair (`a ≥ b`)
returns exactly `(a, b)`, so the normalizer is the identity on its own
output. -/
theorem claim_C9 (a b : Int) (h : a ≥ b) :
    parse_range_spec (.list [.int a, .int b]) = .ok (a, b) := by
  simp [parse_range_spec, pyInt, h]

theorem claim_C9_witness :
    (5 : Int) ≥ 3 ∧ parse_range_spec (.list [.int 5, .int 3]) = .ok (5, 3) :=
  ⟨by decide, claim_C9 5 3 (by decide)⟩

/-- C2 counterexample: the claim's high-bit key set is
`{msb, hi, from, high}`, so a mapping containing only the key `to` should
fail with a malformed-range-spec condition; the source's high-bit probe list
(parser.py line 101) additionally contains `"to"`, so the call succeeds
instead, returning `(5, 5)`. -/
theorem claim_C2_counterexample :
    parse_range_spec (.map [("to", .int 5)]) = .ok (5, 5) := rfl

/-- C2 (amended): the high-bit key is the first present among
`{msb, hi, from, to, high}` (the source probes `to` here as well) and the
low-bit key the first present among `{lsb, lo, to, low}`; with both found
the result is `(max, min)` of the two, and with either probe failing the
call fails with the malformed-range-spec condition carrying the raw
value. -/
theorem claim_C2 (kvs : List (String × Yaml))
    (hvals : ∀ p ∈ kvs, ∃ n : Int, p.2 = Yaml.int n) :
    (∀ a b : Int,
      findFirstKey kvs ["msb", "hi", "from", "to", "high"] = some (.int a) →
      findFirstKey kvs ["lsb", "lo", "to", "low"] = some (.int b) →
      parse_range_spec (.map kvs) = .ok (max a b, min a b)) ∧
    ((findFirstKey kvs ["msb", "hi", "from", "to", "high"] = none ∨
      findFirstKey kvs ["lsb", "lo", "to", "low"] = none) →
      parse_range_spec (.map kvs) = .error (.malformed (.map kvs))) := by
  constructor
  · intro a b ha hb
    simp only [parse_range_spec, ha, hb, pyInt]
    rcases le_total b a with hab | hab
    · rw [if_pos hab, max_eq_left hab, min_eq_right hab]
    · by_cases heq : a ≥ b
      · rw [if_pos heq, max_eq_left heq, min_eq_right heq]
      · rw [if_neg heq, max_eq_right hab, min_eq_left hab]
  · intro h
    rcases h with h | h
    · simp only [parse_range_spec, h]
      cases hl : findFirstKey kvs ["lsb", "lo", "to", "low"] with
      | none => rfl
      | some lv =>
        obtain ⟨k, hk⟩ := findFirstKey_mem kvs _ lv hl
        obtain ⟨n, hn⟩ := hvals (k, lv) hk
        simp only at hn
        rw [hn]
        rfl
    · cases hm : findFirstKey kvs ["msb", "hi", "from", "to", "high"] with
      | none => simp only [parse_range_spec, hm, h]
      | some mv =>
        obtain ⟨k, hk⟩ := findFirstKey_mem kvs _ mv hm
        obtain ⟨n, hn⟩ := hvals (k, mv) hk
        simp only at hn
        subst hn
        simp only [parse_range_spec, hm, h, pyInt]

theorem claim_C2_witness :
    parse_range_spec (.map [("hi", .int 3), ("lo", .int 8)]) = .ok (8, 3) ∧
    parse_range_spec (.map [("foo", .int 1)]) =
      .error (.malformed (.map [("foo", .int 1)])) := by
  constructor
  · have h := (claim_C2 [("hi", .int 3), ("lo", .int 8)]
      (by intro p hp
          cases hp with
          | head => exact ⟨3, rfl⟩
          | tail _ hp2 =>
            cases hp2 with
            | head => exact ⟨8, rfl⟩
            | tail _ hp3 => cases hp3)).1 3 8 rfl rfl
    rwa [show max (3 : Int) 8 = 8 by decide, show min (3 : Int) 8 = 3 by decide] at h
  · exact (claim_C2 [("foo", .int 1)]
      (by intro p hp
          cases hp with
          | head => exact ⟨1, rfl⟩
          | tail _ hp2 => cases hp2)).2 (.inl rfl)

/-- C7: for a field with normalized indices `msb ≥ lsb ≥ 0`, the derived
width equals `msb - lsb + 1`, and the derived mask
`((1 << width) - 1) << lsb` is the integer with exactly `width` contiguous
one-bits whose lowest set bit is at position `lsb`: its bit `i` is set
exactly when `lsb ≤ i < lsb + width`. -/
theorem claim_C7 (f : CSRField) (h0 : 0 ≤ f.lsb) (h1 : f.lsb ≤ f.msb) :
    f.width = f.msb - f.lsb + 1 ∧
    ∀ i : ℕ, f.mask.testBit i =
      (decide (f.lsb ≤ (i : ℤ)) && decide ((i : ℤ) < f.lsb + f.width)) := by
  have hw : f.width = f.msb - f.lsb + 1 := rfl
  refine ⟨hw, fun i => ?_⟩
  rw [mask_eq_coe f h0 h1, testBit_coe, testBit_maskN]
  have e1 : (f.lsb.toNat ≤ i) ↔ (f.lsb ≤ (i : ℤ)) := by omega
  have e2 : (i < f.lsb.toNat + f.width.toNat) ↔ ((i : ℤ) < f.lsb + f.width) := by omega
  rw [decide_eq_decide.mpr e1, decide_eq_decide.mpr e2]

theorem claim_C7_witness :
    (0 : Int) ≤ (CSRField.make "MODE" 6 5 "" (.str "") .null (.str "") "" .null).lsb ∧
    (CSRField.make "MODE" 6 5 "" (.str "") .null (.str "") "" .null).lsb ≤
      (CSRField.make "MODE" 6 5 "" (.str "") .null (.str "") "" .null).msb ∧
    ((CSRField.make "MODE" 6 5 "" (.str "") .null (.str "") "" .null).width =
      (CSRField.make "MODE" 6 5 "" (.str "") .null (.str "") "" .null).msb -
        (CSRField.make "MODE" 6 5 "" (.str "") .null (.str "") "" .null).lsb + 1 ∧
    ∀ i : ℕ,
      (CSRField.make "MODE" 6 5 "" (.str "") .null (.str "") "" .null).mask.testBit i =
      (decide ((CSRField.make "MODE" 6 5 "" (.str "") .null (.str "") "" .null).lsb ≤ (i : ℤ)) &&
       decide ((i : ℤ) < (CSRField.make "MODE" 6 5 "" (.str "") .null (.str "") "" .null).lsb +
         (CSRField.make "MODE" 6 5 "" (.str "") .null (.str "") "" .null).width))) :=
  ⟨by decide, by decide, claim_C7 _ (by decide) (by decide)⟩

/-- C5 counterexample: the claim says the first present location key wins
regardless of its value, so a field descriptor with `location_rv64 = 0` and
`location_rv32 = 3` would get bit range `(0, 0)`; the source's
`field_data.get("location_rv64") or field_data.get("location_rv32")` treats
the present value `0` as falsy and yields `(3, 3)` instead. -/
theorem claim_C5_counterexample :
    (load_all [("m.yaml", some (.map [("kind", .str "csr"), ("name", .str "mreg"),
        ("fields", .map [("F", .map [("location_rv64", .int 0),
          ("location_rv32", .int 3)])])]))]).map
      (fun p => (p.1, p.2.fields.map (fun f => (f.msb, f.lsb)))) =
      [("mreg", [((3 : Int), (3 : Int))])] := rfl

/-- C5 (amended): the loader's location selection consults, in order, the
generic `location` key (winning whenever its value is non-null), then
`location_rv64` — which wins only when its value is truthy, a present falsy
value such as `0` falling through — then `location_rv32`; a field none of
whose three keys yields a value is skipped. -/
theorem claim_C5 (fd : List (String × Yaml)) :
    (∀ v, lookupKey fd "location" = some v → v.isNull = false → selectLocation fd = v) ∧
    (pyGet fd "location" = .null → truthy (pyGet fd "location_rv64") = true →
      selectLocation fd = pyGet fd "location_rv64") ∧
    (pyGet fd "location" = .null → truthy (pyGet fd "location_rv64") = false →
      selectLocation fd = pyGet fd "location_rv32") ∧
    (lookupKey fd "location" = none → lookupKey fd "location_rv64" = none →
      lookupKey fd "location_rv32" = none →
      ∀ fname rest, processFields ((fname, .map fd) :: rest) = processFields rest) := by
  refine ⟨?_, ?_, ?_, ?_⟩
  · intro v hv hnn
    have hg : pyGet fd "location" = v := by unfold pyGet pyGetD; rw [hv]
    unfold selectLocation
    rw [hg]
    simp [hnn]
  · intro h1 h2
    unfold selectLocation
    rw [h1]
    simp [Yaml.isNull, h2]
  · intro h1 h2
    unfold selectLocation
    rw [h1]
    simp [Yaml.isNull, h2]
  · intro ha hb hc fname rest
    have h1 : pyGet fd "location" = .null := by unfold pyGet pyGetD; rw [ha]
    have h2 : pyGet fd "location_rv64" = .null := by unfold pyGet pyGetD; rw [hb]
    have h3 : pyGet fd "location_rv32" = .null := by unfold pyGet pyGetD; rw [hc]
    have hsel : selectLocation fd = .null := by
      unfold selectLocation
      rw [h1, h2, h3]
      simp [Yaml.isNull, truthy]
    simp only [processFields, hsel, Yaml.isNull]
    simp

theorem claim_C5_witness :
    selectLocation [("location_rv64", .int 0), ("location_rv32", .int 3)] = .int 3 ∧
    selectLocation [("location", .int 7), ("location_rv64", .int 1)] = .int 7 := by
  constructor
  · exact (claim_C5 [("location_rv64", .int 0), ("location_rv32", .int 3)]).2.2.1 rfl rfl
  · exact (claim_C5 [("location", .int 7), ("location_rv64", .int 1)]).1 (.int 7) rfl rfl

/-- Each pair of a list zipped with itself is a repeated element. -/
theorem mem_zip_self {α : Type} (l : List α) (p : α × α) (hp : p ∈ l.zip l) :
    p.1 = p.2 := by
  induction l with
  | nil => cases hp
  | cons x xs ih =>
    rw [List.zip_cons_cons] at hp
    cases hp with
    | head => rfl
    | tail _ h => exact ih h

/-- Zipping a mapped list with its original pairs each element with its
image. -/
theorem zip_map_left_self {α β : Type} (g : α → β) (l : List α) :
    (l.map g).zip l = l.map (fun x => (g x, x)) := by
  induction l with
  | nil => rfl
  | cons x xs ih => simp [List.zip_cons_cons, ih]

/-- C1 counterexample: the register's only field already carries access-type
`warl`; one enrichment pass whose hart entry matches the field by
(case-insensitive) name with a field-specific `wpri` descriptor overwrites
it to `wpri`, contradicting the claim that a field whose access-type is
already set is left unchanged by every enrichment path. -/
theorem claim_C1_counterexample :
    csrWarl.fields.map (fun f => f.access_type) = ["warl"] ∧
    ((load_riscv_config_hart hartOverwrite [("mreg", csrWarl)]).map
      (fun p => p.2.fields.map (fun f => f.access_type))) = [["wpri"]] :=
  ⟨rfl, rfl⟩

/-- C1 (amended): first-writer-wins holds only for the whole-register
descriptor path: when the selected width-specific sub-object carries no
`fields` key, enrichment leaves the access-type and legal-value payload of
every field whose access-type is already set unchanged.  (Field-specific
descriptors matched by case-insensitive name overwrite unconditionally, as
the counterexample shows.) -/
theorem claim_C1 (rvm : List (String × Yaml)) (csr_name config_desc : String)
    (csr : CSRDefinition) (hfl : pyGet rvm "fields" = .null) :
    ∀ p ∈ (enrichWithRV rvm csr_name config_desc csr).fields.zip csr.fields,
      p.2.access_type ≠ "" →
      p.1.access_type = p.2.access_type ∧ p.1.legal_values = p.2.legal_values := by
  intro p hp hne
  unfold enrichWithRV at hp
  rw [hfl] at hp
  simp only [show truthy Yaml.null = false from rfl, Bool.false_eq_true, if_false] at hp
  by_cases ht : truthy (pyGet rvm "type") = true
  · rw [if_pos ht] at hp
    by_cases he : csr.fields.isEmpty = true
    · rw [if_pos he] at hp
      rw [List.isEmpty_iff.mp he] at hp
      simp [List.zip_nil_right] at hp
    · rw [if_neg he] at hp
      unfold applyWholeType at hp
      rw [zip_map_left_self] at hp
      obtain ⟨f, hf, hpf⟩ := List.mem_map.mp hp
      subst hpf
      simp only at hne ⊢
      have hbeq : (f.access_type == "") = false := beq_eq_false_iff_ne.mpr hne
      refine ⟨?_, ?_⟩ <;> simp [hbeq]
  · rw [if_neg ht] at hp
    have := mem_zip_self csr.fields p hp
    rw [this]
    exact ⟨rfl, rfl⟩

theorem claim_C1_witness :
    pyGet rvWholeWpri "fields" = .null ∧
    (∀ p ∈ (enrichWithRV rvWholeWpri "mreg" "" csrWarl).fields.zip csrWarl.fields,
      p.2.access_type ≠ "" →
      p.1.access_type = p.2.access_type ∧ p.1.legal_values = p.2.legal_values) :=
  ⟨rfl, claim_C1 rvWholeWpri "mreg" "" csrWarl rfl⟩

/-- C8 counterexample: the register is declared 32 bits long, so a field
spanning its full declared width would be `[31:0]`; with no `msb` key in the
sub-object the source synthesizes `[63:0]` regardless of the declared
length, so the synthesized field does not span the declared width. -/
theorem claim_C8_counterexample :
    csrLen32.length = .int 32 ∧
    ((load_riscv_config_hart hartWholeWpri [("mreg", csrLen32)]).map
      (fun p => p.2.fields.map (fun f => (f.msb, f.lsb, f.access_type)))) =
      [[((63 : Int), (0 : Int), "wpri")]] :=
  ⟨rfl, rfl⟩

/-- C8 (amended): when the selected width-specific sub-object carries a
truthy whole-register type descriptor, the register currently has no
fields, and no field-specific descriptors are given, exactly one field is
appended, named after the register, with `msb` taken from the sub-object's
`msb` key or defaulting to 63 and `lsb` from its `lsb` key or defaulting to
0 — independent of the register's declared bit-length — carrying the
classified access-type and legal-value payload. -/
theorem claim_C8 (rvm : List (String × Yaml)) (csr_name config_desc : String)
    (csr : CSRDefinition) (hempty : csr.fields = [])
    (htype : truthy (pyGet rvm "type") = true)
    (hfl : pyGet rvm "fields" = .null) :
    (enrichWithRV rvm csr_name config_desc csr).fields =
      [CSRField.make csr_name (getIntD rvm "msb" 63) (getIntD rvm "lsb" 0) config_desc
        (.str "") .null (.str "") (parse_type_info (pyGet rvm "type")).1
        (parse_type_info (pyGet rvm "type")).2] := by
  unfold enrichWithRV
  rw [hfl]
  simp only [show truthy Yaml.null = false from rfl, Bool.false_eq_true, if_false]
  rw [if_pos htype, if_pos (by rw [hempty]; rfl)]
  unfold CSRDefinition.add_field
  rw [hempty]
  rfl

theorem claim_C8_witness :
    csrLen32.fields = [] ∧
    truthy (pyGet rvWholeWpri "type") = true ∧
    pyGet rvWholeWpri "fields" = .null ∧
    (enrichWithRV rvWholeWpri "mreg" "" csrLen32).fields =
      [CSRField.make "mreg" (getIntD rvWholeWpri "msb" 63) (getIntD rvWholeWpri "lsb" 0) ""
        (.str "") .null (.str "") (parse_type_info (pyGet rvWholeWpri "type")).1
        (parse_type_info (pyGet rvWholeWpri "type")).2] :=
  ⟨rfl, rfl, rfl, claim_C8 rvWholeWpri "mreg" "" csrLen32 rfl rfl rfl⟩

/-- A register document accepted by the loader. -/
def goodDoc : Yaml := .map [("kind", .str "csr"), ("name", .str "mreg")]

/-- C3 counterexample: the claim says the load operation returns the table
together with a per-file diagnostics list, and that an unparsable file
contributes a diagnostic to that list.  The source's `load_all` returns only
the name-indexed table, and a directory containing an unparsable file loads
to a value identical to the one obtained without that file — nothing in the
returned value records the failure, so no diagnostic is returned.  (The
remaining file still loads.) -/
theorem claim_C3_counterexample :
    load_all [("a.yaml", none), ("m.yaml", some goodDoc)] =
      load_all [("m.yaml", some goodDoc)] ∧
    (load_all [("a.yaml", none), ("m.yaml", some goodDoc)]).map (fun p => p.1) = ["mreg"] :=
  ⟨rfl, rfl⟩

/-- C3 (amended): the load operation returns only the name-indexed
definition table (no diagnostics list); a file that fails to parse is
skipped silently, wherever it occurs in the processing order, and the
remaining files are still loaded exactly as if the bad file were absent —
loading never aborts because of one bad file. -/
theorem claim_C3 (pre post : List (String × Option Yaml)) (fname : String)
    (table : List (String × CSRDefinition)) :
    (pre ++ (fname, none) :: post).foldl processFile table =
      (pre ++ post).foldl processFile table := by
  induction pre generalizing table with
  | nil => rfl
  | cons x xs ih =>
    simp only [List.cons_append, List.foldl_cons]
    exact ih (processFile table x)

/-- C10: for every observation of `decode_value` whose field indices are
normalized (`msb ≥ lsb ≥ 0`), and every integer input — negative and
over-wide inputs included — the extracted value is in `[0, 2^width)` and
equals the `width`-bit slice of the (two's complement) input starting at bit
`lsb`: its bit `i` equals bit `lsb + i` of the input for `i < width` and is
zero above. -/
theorem claim_C10 (csr : CSRDefinition) (v : Int) (o : Observation)
    (ho : o ∈ decode_value csr v) (h0 : 0 ≤ o.lsb) (h1 : o.lsb ≤ o.msb) :
    0 ≤ o.value ∧ o.value < 2 ^ o.width.toNat ∧
    ∀ i : ℕ, o.value.testBit i =
      (decide (i < o.width.toNat) && v.testBit (o.lsb.toNat + i)) := by
  unfold decode_value at ho
  obtain ⟨f, hf, hof⟩ := List.mem_map.mp ho
  subst hof
  obtain ⟨n, hn, hbits, hlt⟩ := extract_spec f h0 h1 v
  refine ⟨?_, ?_, ?_⟩
  · show 0 ≤ (Int.land v f.mask) >>> f.lsb
    rw [hn]
    exact Int.natCast_nonneg n
  · show (Int.land v f.mask) >>> f.lsb < 2 ^ f.width.toNat
    rw [hn]
    exact_mod_cast hlt
  · intro i
    show Int.testBit ((Int.land v f.mask) >>> f.lsb) i = _
    rw [hn, testBit_coe, hbits i]

theorem insertSorted_perm {α : Type} (le : α → α → Bool) (x : α) (l : List α) :
    List.Perm (insertSorted le x l) (x :: l) := by
  induction l with
  | nil => exact List.Perm.refl _
  | cons y ys ih =>
    unfold insertSorted
    by_cases h : le x y = true
    · rw [if_pos h]
    · rw [if_neg h]
      exact (List.Perm.cons y ih).trans (List.Perm.swap x y ys)

theorem pySorted_perm {α : Type} (le : α → α → Bool) (l : List α) :
    List.Perm (pySorted le l) l := by
  induction l with
  | nil => exact List.Perm.refl _
  | cons x xs ih =>
    exact (insertSorted_perm le x (pySorted le xs)).trans (List.Perm.cons x ih)

theorem mem_pySorted {α : Type} (le : α → α → Bool) (l : List α) (x : α) :
    x ∈ pySorted le l ↔ x ∈ l :=
  (pySorted_perm le l).mem_iff

/-- Per-field equivalence underlying the xor-diff/compare agreement: the
field's mask meets the xor of two values exactly when the two extracted
field values differ. -/
theorem changed_eq_zero_iff (f : CSRField) (h0 : 0 ≤ f.lsb) (h1 : f.lsb ≤ f.msb)
    (a b : Int) :
    Int.land f.mask (Int.xor a b) = 0 ↔
      (Int.land a f.mask) >>> f.lsb = (Int.land b f.mask) >>> f.lsb := by
  obtain ⟨nA, hA, bitsA, _⟩ := extract_spec f h0 h1 a
  obtain ⟨nB, hB, bitsB, _⟩ := extract_spec f h0 h1 b
  obtain ⟨nX, hX, bitsX⟩ := by
    have := coe_land_spec (maskN f.width.toNat f.lsb.toNat) (Int.xor a b)
    rwa [← mask_eq_coe f h0 h1] at this
  rw [hX, hA, hB]
  constructor
  · intro h
    have hX0 : nX = 0 := by exact_mod_cast h
    have hnn : nA = nB := by
      apply Nat.eq_of_testBit_eq
      intro i
      rw [bitsA, bitsB]
      by_cases hi : i < f.width.toNat
      · have hb := congrArg (fun m => m.testBit (f.lsb.toNat + i)) hX0
        simp only [Nat.zero_testBit] at hb
        rw [bitsX, testBit_maskN] at hb
        have e1 : f.lsb.toNat ≤ f.lsb.toNat + i := Nat.le_add_right _ _
        have e2 : f.lsb.toNat + i < f.lsb.toNat + f.width.toNat := by omega
        rw [Int.testBit_lxor, decide_eq_true e1, decide_eq_true e2] at hb
        simp only [Bool.true_and, Bool.and_comm] at hb
        have : a.testBit (f.lsb.toNat + i) = b.testBit (f.lsb.toNat + i) := by
          cases ha' : a.testBit (f.lsb.toNat + i) <;>
            cases hb' : b.testBit (f.lsb.toNat + i) <;> simp_all
        rw [this]
      · simp [hi]
    exact_mod_cast hnn
  · intro h
    have hAB : nA = nB := by exact_mod_cast h
    have hX0 : nX = 0 := by
      apply Nat.eq_of_testBit_eq
      intro j
      rw [bitsX, Nat.zero_testBit, testBit_maskN]
      by_cases hj1 : f.lsb.toNat ≤ j
      · by_cases hj2 : j < f.lsb.toNat + f.width.toNat
        · have hi : j - f.lsb.toNat < f.width.toNat := by omega
          have hji : f.lsb.toNat + (j - f.lsb.toNat) = j := by omega
          have hbA := congrArg (fun m => m.testBit (j - f.lsb.toNat)) hAB
          simp only at hbA
          rw [bitsA, bitsB, hji, decide_eq_true hi] at hbA
          simp only [Bool.true_and] at hbA
          rw [Int.testBit_lxor, hbA]
          cases hb' : b.testBit j <;> simp
        · simp [hj2]
      · simp [hj1]
    rw [hX0]
    rfl

/-- C4: for a register whose fields occupy valid, pairwise disjoint bit
ranges, the field names reported by decode_xor_mask at `a XOR b` (all of
whose entries have nonzero changed_mask) are exactly the field names of the
pairs retained by the compare operation on `a` and `b` — position by
position in the shared descending-msb ordering. -/
theorem claim_C4 (csr : CSRDefinition) (a b : Int)
    (hvalid : ∀ f ∈ csr.fields, 0 ≤ f.lsb ∧ f.lsb ≤ f.msb)
    (hdisj : csr.fields.Pairwise (fun f g => Int.land f.mask g.mask = 0)) :
    (decode_xor_mask csr (Int.xor a b)).map (fun c => c.name) =
      (compare csr a b).map (fun d => d.field) := by
  unfold decode_xor_mask compare decode_value CSRField.changed_bits
  rw [List.zip_map', List.map_filterMap, List.filterMap_map, List.map_filterMap]
  apply List.filterMap_congr
  intro f hf
  have hmem : f ∈ csr.fields := (mem_pySorted _ _ f).mp hf
  obtain ⟨hl0, hl1⟩ := hvalid f hmem
  have hiff := changed_eq_zero_iff f hl0 hl1 a b
  by_cases hc : Int.land f.mask (Int.xor a b) = 0
  · have hv : (Int.land a f.mask) >>> f.lsb = (Int.land b f.mask) >>> f.lsb := hiff.mp hc
    simp [hc, hv]
  · have hv : ¬ ((Int.land a f.mask) >>> f.lsb = (Int.land b f.mask) >>> f.lsb) :=
      fun h => hc (hiff.mpr h)
    simp [hc, hv]

theorem claim_C4_witness :
    (∀ f ∈ demoCSR.fields, 0 ≤ f.lsb ∧ f.lsb ≤ f.msb) ∧
    demoCSR.fields.Pairwise (fun f g => Int.land f.mask g.mask = 0) ∧
    (decode_xor_mask demoCSR (Int.xor 181 165)).map (fun c => c.name) =
      (compare demoCSR 181 165).map (fun d => d.field) :=
  ⟨by decide, by decide, claim_C4 demoCSR 181 165 (by decide) (by decide)⟩

/-- Shifting the extracted field value back left by `lsb` recovers the
masked input (the mask has no bits below `lsb`). -/
theorem extract_shl (f : CSRField) (h0 : 0 ≤ f.lsb) (h1 : f.lsb ≤ f.msb) (v : Int) :
    ((Int.land v f.mask) >>> f.lsb) <<< f.lsb = Int.land v f.mask := by
  obtain ⟨n0, hn0, hbits⟩ := by
    have := land_coe_spec v (maskN f.width.toNat f.lsb.toNat)
    rwa [← mask_eq_coe f h0 h1] at this
  have hl : ((f.lsb.toNat : ℕ) : ℤ) = f.lsb := Int.toNat_of_nonneg h0
  have hlow : ∀ i, i < f.lsb.toNat → n0.testBit i = false := by
    intro i hi
    rw [hbits, testBit_maskN]
    have hno : ¬ (f.lsb.toNat ≤ i) := by omega
    simp [hno]
  have hnat : (n0 >>> f.lsb.toNat) <<< f.lsb.toNat = n0 := by
    apply Nat.eq_of_testBit_eq
    intro i
    rw [Nat.testBit_shiftLeft, Nat.testBit_shiftRight]
    by_cases hle : f.lsb.toNat ≤ i
    · rw [decide_eq_true hle, Bool.true_and]
      congr 1
      omega
    · simp [hle, hlow i (by omega)]
  calc ((Int.land v f.mask) >>> f.lsb) <<< f.lsb
      = (((n0 : ℕ) : ℤ) >>> ((f.lsb.toNat : ℕ) : ℤ)) <<< ((f.lsb.toNat : ℕ) : ℤ) := by
        rw [hn0, hl]
    _ = ((n0 >>> f.lsb.toNat : ℕ) : ℤ) <<< ((f.lsb.toNat : ℕ) : ℤ) := by
        rw [Int.shiftRight_coe_nat]
    _ = (((n0 >>> f.lsb.toNat) <<< f.lsb.toNat : ℕ) : ℤ) := by
        rw [Int.shiftLeft_coe_nat]
    _ = ((n0 : ℕ) : ℤ) := by rw [hnat]
    _ = Int.land v f.mask := hn0.symm

/-- The `ℤ`-level fold of the field masks is the coercion of the `ℕ`-level
fold. -/
theorem foldr_lor_coe :
    ∀ (fs : List CSRField), (∀ f ∈ fs, 0 ≤ f.lsb ∧ f.lsb ≤ f.msb) →
      fs.foldr (fun f acc => Int.lor f.mask acc) 0 =
        (((fs.map (fun f => maskN f.width.toNat f.lsb.toNat)).foldr
          (fun x acc => x ||| acc) 0 : ℕ) : ℤ) := by
  intro fs
  induction fs with
  | nil => intro _; rfl
  | cons f rest ih =>
    intro hv
    obtain ⟨h0, h1⟩ := hv f (by simp)
    rw [List.foldr_cons, ih (fun g hg => hv g (by simp [hg])), mask_eq_coe f h0 h1,
      List.map_cons, List.foldr_cons]
    rfl

/-- C6: for a register whose valid fields exactly tile bit positions `0`
through `L - 1` (`L` the declared bit-length) — pairwise disjoint masks
whose union is the low-`L` all-ones mask — and every input in `[0, 2^L)`,
summing `observed value << low` over the observations of `decode_value`
reconstructs the input exactly. -/
theorem claim_C6 (csr : CSRDefinition) (L : ℕ) (v : Int)
    (hlen : csr.length = .int (L : Int))
    (hvalid : ∀ f ∈ csr.fields, 0 ≤ f.lsb ∧ f.lsb ≤ f.msb)
    (hdisj : csr.fields.Pairwise (fun f g => Int.land f.mask g.mask = 0))
    (htile : csr.fields.foldr (fun f acc => Int.lor f.mask acc) 0 = 2 ^ L - 1)
    (hv0 : 0 ≤ v) (hv1 : v < 2 ^ L) :
    ((decode_value csr v).map (fun o => o.value <<< o.lsb)).sum = v := by
  have hv : v = (v.toNat : ℤ) := (Int.toNat_of_nonneg hv0).symm
  unfold decode_value
  rw [List.map_map]
  have step1 : (sortByMsbDesc csr.fields).map
        ((fun o : Observation => o.value <<< o.lsb) ∘ (fun f =>
          ({ name := f.name, msb := f.msb, lsb := f.lsb, width := f.width,
             value := (Int.land v f.mask) >>> f.lsb, desc := f.desc } : Observation))) =
      (sortByMsbDesc csr.fields).map
        (fun f => ((v.toNat &&& maskN f.width.toNat f.lsb.toNat : ℕ) : ℤ)) := by
    apply List.map_congr_left
    intro f hf
    obtain ⟨h0, h1⟩ := hvalid f ((mem_pySorted _ _ f).mp hf)
    show ((Int.land v f.mask) >>> f.lsb) <<< f.lsb = _
    rw [extract_shl f h0 h1 v, mask_eq_coe f h0 h1]
    rw [hv]
    rfl
  rw [step1]
  have step2 : ((sortByMsbDesc csr.fields).map
        (fun f => ((v.toNat &&& maskN f.width.toNat f.lsb.toNat : ℕ) : ℤ))).sum =
      (csr.fields.map
        (fun f => ((v.toNat &&& maskN f.width.toNat f.lsb.toNat : ℕ) : ℤ))).sum :=
    ((pySorted_perm _ csr.fields).map _).sum_eq
  rw [step2]
  have step3 : (csr.fields.map
        (fun f => ((v.toNat &&& maskN f.width.toNat f.lsb.toNat : ℕ) : ℤ))).sum =
      (((csr.fields.map
        (fun f => v.toNat &&& maskN f.width.toNat f.lsb.toNat)).sum : ℕ) : ℤ) := by
    rw [Nat.cast_list_sum, List.map_map]
    rfl
  rw [step3]
  have hpairN : (csr.fields.map (fun f => maskN f.width.toNat f.lsb.toNat)).Pairwise
      (fun x y => x &&& y = 0) := by
    rw [List.pairwise_map]
    apply hdisj.imp_of_mem
    intro f g hfm hgm hfg
    obtain ⟨f0, f1⟩ := hvalid f hfm
    obtain ⟨g0, g1⟩ := hvalid g hgm
    rw [mask_eq_coe f f0 f1, mask_eq_coe g g0 g1] at hfg
    have : ((maskN f.width.toNat f.lsb.toNat &&& maskN g.width.toNat g.lsb.toNat : ℕ) : ℤ) =
        ((0 : ℕ) : ℤ) := hfg
    exact_mod_cast this
  have step4 : (csr.fields.map (fun f => v.toNat &&& maskN f.width.toNat f.lsb.toNat)).sum =
      v.toNat &&& (csr.fields.map (fun f => maskN f.width.toNat f.lsb.toNat)).foldr
        (fun x acc => x ||| acc) 0 := by
    have := sum_land_eq_land_foldr_or v.toNat
      (csr.fields.map (fun f => maskN f.width.toNat f.lsb.toNat)) hpairN
    rw [← this, List.map_map]
    rfl
  rw [step4]
  have htileN : (csr.fields.map (fun f => maskN f.width.toNat f.lsb.toNat)).foldr
      (fun x acc => x ||| acc) 0 = 2 ^ L - 1 := by
    have hc := foldr_lor_coe csr.fields hvalid
    rw [htile] at hc
    have hcast : ((2 ^ L - 1 : ℕ) : ℤ) = (2 : ℤ) ^ L - 1 := by
      push_cast [Nat.one_le_two_pow]
      ring
    rw [← hcast] at hc
    exact_mod_cast hc.symm
  rw [htileN]
  have hvlt : v.toNat < 2 ^ L := by
    have : (v.toNat : ℤ) < ((2 ^ L : ℕ) : ℤ) := by
      rw [← hv]
      exact_mod_cast hv1
    exact_mod_cast this
  rw [Nat.and_pow_two_sub_one_of_lt_two_pow hvlt]
  exact hv.symm

theorem claim_C6_witness :
    demoCSR.length = .int ((8 : ℕ) : Int) ∧
    (∀ f ∈ demoCSR.fields, 0 ≤ f.lsb ∧ f.lsb ≤ f.msb) ∧
    demoCSR.fields.Pairwise (fun f g => Int.land f.mask g.mask = 0) ∧
    demoCSR.fields.foldr (fun f acc => Int.lor f.mask acc) 0 = 2 ^ (8 : ℕ) - 1 ∧
    (0 : Int) ≤ 181 ∧ (181 : Int) < 2 ^ (8 : ℕ) ∧
    ((decode_value demoCSR 181).map (fun o => o.value <<< o.lsb)).sum = 181 :=
  ⟨rfl, by decide, by decide, by decide, by decide, by decide,
    claim_C6 demoCSR 8 181 rfl (by decide) (by decide) (by decide) (by decide) (by decide)⟩

theorem claim_C10_witness :
    (⟨"CNT", 4, 0, 5, 12, ""⟩ : Observation) ∈ decode_value csrCnt 300 ∧
    (0 : Int) ≤ (⟨"CNT", 4, 0, 5, 12, ""⟩ : Observation).lsb ∧
    (⟨"CNT", 4, 0, 5, 12, ""⟩ : Observation).lsb ≤
      (⟨"CNT", 4, 0, 5, 12, ""⟩ : Observation).msb ∧
    (0 ≤ (⟨"CNT", 4, 0, 5, 12, ""⟩ : Observation).value ∧
     (⟨"CNT", 4, 0, 5, 12, ""⟩ : Observation).value <
       2 ^ (⟨"CNT", 4, 0, 5, 12, ""⟩ : Observation).width.toNat ∧
     ∀ i : ℕ, (⟨"CNT", 4, 0, 5, 12, ""⟩ : Observation).value.testBit i =
       (decide (i < (⟨"CNT", 4, 0, 5, 12, ""⟩ : Observation).width.toNat) &&
        (300 : Int).testBit ((⟨"CNT", 4, 0, 5, 12, ""⟩ : Observation).lsb.toNat + i))) :=
  ⟨by decide, by decide, by decide,
    claim_C10 csrCnt 300 ⟨"CNT", 4, 0, 5, 12, ""⟩ (by decide) (by decide) (by decide)⟩

end Udb
